import Mathlib

/-!
Verification of the TileDB-SOMA batched read path and its R API layer.

The repository splits into two parts:

* the core query/buffer engine (`SOMAReader` / `ManagedQuery` / `ColumnBuffer`),
  whose C++ implementation is not shipped here — only its CLI caller
  (`cli.cc`, `test_sdf`), the R binding declarations (`RcppExports.cpp`)
  and build files are present.  Definitions for that part are modelled from
  the written specification (each doc comment says so explicitly).
* the R API layer (`apis/r/R/TileDBGroup.R`, `apis/r/R/TileDBArray.R`),
  whose sources are present; those definitions are direct translations.
-/

deriving instance DecidableEq for Except

namespace SpecModel

/-- Modelled from the spec: the byte payload of one (possibly variable-length)
value of one column, as stored in a `ColumnBuffer` data segment (§3, §4.1).
We abstract bytes as natural numbers; only their count matters. -/
abbrev Cell := List Nat

/-- Modelled from the spec: one logical result row — one cell per selected
column, corresponding values across columns belonging to the same row (§6). -/
abbrev Row := List Cell

/-- Byte usage of row `r` in column `j` (columns a row does not mention use
zero bytes). -/
def cellBytes (r : Row) (j : Nat) : Nat := (r.getD j []).length

/-- Modelled from the spec: a single row fits the current per-column byte
capacities iff each column's payload for that row is within that column's
capacity (§6: INCOMPLETE with zero rows for a column means the buffer was
too small to hold even one row's payload). -/
def rowFits (caps : List Nat) (r : Row) : Bool :=
  (List.range caps.length).all (fun j => cellBytes r j ≤ caps.getD j 0)

/-- Byte usage of the first `n`-row prefix per column, accumulated pointwise. -/
def addRowBytes (caps : List Nat) (used : List Nat) (r : Row) : List Nat :=
  (List.range caps.length).map (fun j => used.getD j 0 + cellBytes r j)

/-- Modelled from the spec: the storage engine fills each column's buffer with
consecutive result rows and stops when the next row would overflow some
column's remaining byte capacity; this computes the per-submission row count
(§6: submit returns COMPLETE/INCOMPLETE with a row count per column). -/
def fitCountAux (caps : List Nat) (used : List Nat) : List Row → Nat
  | [] => 0
  | r :: rest =>
    if (List.range caps.length).all
        (fun j => (addRowBytes caps used r).getD j 0 ≤ caps.getD j 0)
    then 1 + fitCountAux caps (addRowBytes caps used r) rest
    else 0

/-- Number of pending rows one submission returns given per-column capacities. -/
def fitCount (caps : List Nat) (pending : List Row) : Nat :=
  fitCountAux caps (caps.map (fun _ => 0)) pending

/-- Modelled from the spec (§7): error kinds surfaced by the query layer that
our claims mention. -/
inductive EngineError
  | RowTooLarge
  | QueryAlreadyComplete
  deriving DecidableEq, Repr

/-- Modelled from the spec (§4.2 buffer-growth policy): capacities of the
columns whose first-row payload does not fit are doubled, clamped at the hard
ceiling `maxCap` derived from the total budget; other columns are untouched. -/
def growCaps (caps : List Nat) (r : Row) (maxCap : Nat) : List Nat :=
  (List.range caps.length).map (fun j =>
    if caps.getD j 0 < cellBytes r j
    then min (caps.getD j 0 * 2) maxCap
    else caps.getD j 0)

/-- Modelled from the spec (§4.2, §9): the bounded internal growth-retry loop
inside `submit()`/`resume()`.  If the engine reports a truncated submission
with zero rows, undersized columns are doubled (clamped at the ceiling) and
the submission retried; when growth can make no further progress the call
fails with `RowTooLarge`.  `fuel` bounds the number of silent retries (§4.2:
"a bounded number of silent internal retries"). -/
def submitLoop (maxCap : Nat) : Nat → List Row → List Nat →
    Except EngineError (List Row × List Nat)
  | _, [], caps => .ok ([], caps)
  | 0, _ :: _, _ => .error .RowTooLarge
  | fuel + 1, r :: rest, caps =>
    if fitCount caps (r :: rest) = 0 then
      if growCaps caps r maxCap = caps then .error .RowTooLarge
      else submitLoop maxCap fuel (r :: rest) (growCaps caps r maxCap)
    else .ok ((r :: rest).take (fitCount caps (r :: rest)), caps)

/-- Modelled from the spec (§3): ManagedQuery state —
not-yet-submitted → submitted-incomplete → submitted-complete. -/
inductive QState
  | unsubmitted
  | incomplete
  | complete
  deriving DecidableEq, Repr

/-- Modelled from the spec (§4.2, §6): one ManagedQuery.  `rows` is the storage
engine's full answer for the encoded query (the engine is consumed as an
opaque contract); `pos` is the engine-tracked resumption position; `caps` the
per-column byte capacities; `maxCap` the hard growth ceiling. -/
structure Query where
  rows : List Row
  caps : List Nat
  maxCap : Nat
  pos : Nat
  state : QState
  deriving DecidableEq, Repr

/-- Modelled from the spec: the shared core of `submit()`/`resume()` — re-offer
the buffers to the engine from the current resumption position, run the
growth-retry loop, advance the position by the returned row count, and move to
submitted-complete exactly when the whole answer has been delivered. -/
def stepQuery (fuel : Nat) (q : Query) : Except EngineError (List Row × Query) :=
  match submitLoop q.maxCap fuel (q.rows.drop q.pos) q.caps with
  | .error e => .error e
  | .ok (batch, caps') =>
    .ok (batch,
      { q with
        pos := q.pos + batch.length
        caps := caps'
        state := if q.pos + batch.length = q.rows.length then .complete else .incomplete })

/-- Modelled from the spec (§4.2 state machine): `submit()`.  A query that is
submitted-complete must not be resubmitted: the call fails with
`QueryAlreadyComplete` and leaves the query unchanged. -/
def submitMQ (fuel : Nat) (q : Query) : Except EngineError (List Row) × Query :=
  match q.state with
  | .complete => (.error .QueryAlreadyComplete, q)
  | _ =>
    match stepQuery fuel q with
    | .error e => (.error e, q)
    | .ok (batch, q') => (.ok batch, q')

/-- Modelled from the spec (§4.2 state machine): `resume()` — same request,
same buffers, ask for more; fails with `QueryAlreadyComplete` once the query
is submitted-complete, leaving it unchanged. -/
def resumeMQ (fuel : Nat) (q : Query) : Except EngineError (List Row) × Query :=
  match q.state with
  | .complete => (.error .QueryAlreadyComplete, q)
  | _ =>
    match stepQuery fuel q with
    | .error e => (.error e, q)
    | .ok (batch, q') => (.ok batch, q')

/-- Modelled from the spec (§4.3): the Reader façade exclusively owns one
ManagedQuery. -/
structure Reader where
  q : Query
  deriving DecidableEq, Repr

/-- Modelled from the spec (§4.3): construct a Reader whose ManagedQuery is
not yet submitted, positioned at the start of the answer. -/
def openReader (rows : List Row) (caps : List Nat) (maxCap : Nat) : Reader :=
  ⟨{ rows := rows, caps := caps, maxCap := maxCap, pos := 0, state := .unsubmitted }⟩

/-- Modelled from the spec (§4.3): `isComplete()` is true once the last
submission/resume reported completion. -/
def isComplete (r : Reader) : Bool := r.q.state = QState.complete

/-- Modelled from the bindings and the spec: `sr_complete` (RcppExports.cpp)
reports completion and does not modify the reader. -/
def sr_complete (r : Reader) : Bool × Reader := (isComplete r, r)

/-- Call `sr_complete` repeatedly, collecting the returned booleans and
threading the reader state through. -/
def iterComplete : Nat → Reader → List Bool × Reader
  | 0, r => ([], r)
  | n + 1, r =>
    let p := sr_complete r
    let rest := iterComplete n p.2
    (p.1 :: rest.1, rest.2)

/-- Modelled from the spec (§4.3): `readNext()` — "no more data" (`none`) once
the query is complete and the last batch has been delivered; otherwise run
`submit()`/`resume()` (the shared `stepQuery` core) and return the rows the
engine produced as one batch.  An empty engine result is only possible when
nothing was pending, in which case the query is complete and "no more data"
is returned — "no rows, but more to come" is never observable. -/
def readNext (fuel : Nat) (r : Reader) : Except EngineError (Option (List Row) × Reader) :=
  if r.q.state = QState.complete then .ok (none, r)
  else
    match stepQuery fuel r.q with
    | .error e => .error e
    | .ok (batch, q') =>
      if batch.isEmpty then .ok (none, ⟨q'⟩) else .ok (some batch, ⟨q'⟩)

/-- Apply `readNext` `k` times, keeping only the final reader state. -/
def iterRead (fuel : Nat) : Nat → Reader → Except EngineError Reader
  | 0, r => .ok r
  | k + 1, r =>
    match readNext fuel r with
    | .error e => .error e
    | .ok (_, r') => iterRead fuel k r'

/-- Pull up to `k` batches out of a reader, in call order, stopping at the
first "no more data". -/
def readBatches (fuel : Nat) : Nat → Reader → Except EngineError (List (List Row) × Reader)
  | 0, r => .ok ([], r)
  | k + 1, r =>
    match readNext fuel r with
    | .error e => .error e
    | .ok (none, r') => .ok ([], r')
    | .ok (some b, r') =>
      match readBatches fuel k r' with
      | .error e => .error e
      | .ok (bs, r'') => .ok (b :: bs, r'')

/-- Follows the spec's words (§8, refinement property): the rows the storage
engine would return for the same query executed unbatched — its full answer
in engine order. -/
def unbatchedQuery (q : Query) : List Row := q.rows

/-- Modelled from the spec (§3, §4.1): static description of one selected
column — its name and whether it is variable-length. -/
structure ColumnMeta where
  name : String
  isVar : Bool
  deriving DecidableEq, Repr

/-- Modelled from the spec (§4.1, §6): the interchange-format view of one
column of a batch: a per-column row count, the data segment, and, for
variable-length columns, the offsets segment. -/
structure InterchangeColumn where
  name : String
  size : Nat
  data : List Nat
  offsets : Option (List Nat)
  deriving DecidableEq, Repr

/-- Modelled from the spec (§3, canonical offset-array invariant): the offsets
segment for a list of variable-length cells, starting at byte offset
`start` — each entry is the running byte position, with one trailing entry. -/
def offsetsFrom (start : Nat) : List Cell → List Nat
  | [] => [start]
  | c :: cs => start :: offsetsFrom (start + c.length) cs

/-- The cells of column `j` across the rows of a batch. -/
def colCells (batch : List Row) (j : Nat) : List Cell :=
  batch.map (fun row => row.getD j [])

/-- Modelled from the spec (§4.1 `asInterchangeArray`): package one column's
cells into its interchange view — data is the concatenation of the cells,
offsets are present exactly for variable-length columns. -/
def packColumn (meta : ColumnMeta) (cells : List Cell) : InterchangeColumn :=
  { name := meta.name
    size := cells.length
    data := cells.flatten
    offsets := if meta.isVar then some (offsetsFrom 0 cells) else none }

/-- Modelled from the spec (§4.3): the Reader packages the current
ColumnBuffers into one logical batch — one interchange column per selected
column. -/
def packBatch (metas : List ColumnMeta) (batch : List Row) : List InterchangeColumn :=
  metas.enum.map (fun p => packColumn p.2 (colCells batch p.1))

/-- All capacities are positive and within the growth ceiling. -/
def goodCaps (maxCap : Nat) (caps : List Nat) : Prop :=
  ∀ j, j < caps.length → 1 ≤ caps.getD j 0 ∧ caps.getD j 0 ≤ maxCap

/-- Total remaining growth room, the measure the retry loop decreases. -/
def capsSlack (maxCap : Nat) (caps : List Nat) : Nat :=
  (Finset.range caps.length).sum (fun j => maxCap - caps.getD j 0)

/-- The batch well-formedness check of the spec's invariant (§8): every
column reports the row count `n`, and every variable-length column's offsets
segment has `n + 1` entries, the last equal to the data segment's byte
length. -/
def batchWellFormed (cols : List InterchangeColumn) (n : Nat) : Bool :=
  cols.all (fun c =>
    c.size == n &&
    match c.offsets with
    | none => true
    | some os => (os.length == c.size + 1) && (os.getLast? == some c.data.length))

/-- Invariants of a reader mid-stream: capacities are positive and within the
ceiling, every row's payload per column is within the ceiling, the retry fuel
dominates the remaining growth room, the position is inside the answer, and a
complete query has delivered everything. -/
def ReaderGood (fuel : Nat) (rd : Reader) : Prop :=
  goodCaps rd.q.maxCap rd.q.caps ∧
  (∀ row ∈ rd.q.rows, ∀ j, j < rd.q.caps.length → cellBytes row j ≤ rd.q.maxCap) ∧
  capsSlack rd.q.maxCap rd.q.caps < fuel ∧
  rd.q.pos ≤ rd.q.rows.length ∧
  (rd.q.state = QState.complete → rd.q.pos = rd.q.rows.length)

end SpecModel

namespace RApi

/-- Arrow value types that occur in the R sources we translate. -/
inductive ArrowType
  | int64
  | int32
  | float32
  | float64
  | utf8
  | boolean
  deriving DecidableEq, Repr

/-- One field of an Arrow schema: a column name and its Arrow type. -/
structure Field where
  name : String
  typ : ArrowType
  deriving DecidableEq, Repr

/-- An Arrow schema as the ordered list of its fields. -/
abbrev Schema := List Field

/-- `schema$names`: the column names of a schema, in order. -/
def schemaNames (s : Schema) : List String := s.map Field.name

/-- The distinct `stopifnot` failures of the translated R functions. -/
inductive RError
  | indexColumnsInvalid
  | indexColumnNotInSchema
  | reservedSomaPrefix
  | somaJoinidNotInt64
  | noNonIndexColumn
  | unknownColumn
  | schemaMismatch
  deriving DecidableEq, Repr

/-- R `startsWith(x, p)`: string prefix test, computed on character lists. -/
def strStartsWith (s p : String) : Bool := p.data.isPrefixOf s.data

/-- Translated from `SOMADataFrame` `private$validate_schema`
(src/apis/r/R/TileDBGroup.R lines 469-494): check the index columns, reject
any non-`soma_joinid` column name starting with the reserved prefix `soma_`,
then require an existing `soma_joinid` field to be of Arrow type int64, and
add the field at position 0 when it is absent. -/
def validate_schema (schema : Schema) (index_column_names : List String) :
    Except RError Schema :=
  if index_column_names.isEmpty then .error .indexColumnsInvalid
  else if ¬ index_column_names.all (fun n => decide (n ∈ schemaNames schema)) then
    .error .indexColumnNotInSchema
  else if ¬ ((schemaNames schema).filter (fun n => n ≠ "soma_joinid")).all
      (fun n => ! strStartsWith n "soma_") then
    .error .reservedSomaPrefix
  else
    match schema.find? (fun f => f.name == "soma_joinid") with
    | some f =>
      if f.typ = ArrowType.int64 then .ok schema else .error .somaJoinidNotInt64
    | none => .ok ({ name := "soma_joinid", typ := ArrowType.int64 } :: schema)

/-- Translated from `SOMADataFrame$create` (src/apis/r/R/TileDBGroup.R lines
275-282): validate the schema, then require at least one non-index column;
on success the created array carries the validated schema. -/
def SOMADataFrame_create (schema : Schema) (index_column_names : List String) :
    Except RError Schema :=
  match validate_schema schema index_column_names with
  | .error e => .error e
  | .ok schema' =>
    if ((schemaNames schema').filter (fun n => decide (n ∉ index_column_names))).isEmpty
    then .error .noNonIndexColumn
    else .ok schema'

/-- An Arrow table as a list of named columns (values abstracted as `Int`). -/
abbrev Table := List (String × List Int)

/-- `values$ColumnNames()`. -/
def colNamesOf (t : Table) : List String := t.map Prod.fst

/-- Translated from `SOMADataFrame$write` (src/apis/r/R/TileDBGroup.R lines
369-395): the input's column names must all be schema names and every schema
name must be present; only then is the array opened for writing and the
projection `as.data.frame(values)[schema_names]` appended, otherwise the
`stopifnot` fires first and the stored fragments are untouched. -/
def SOMADataFrame_write (schema_names : List String) (store : List Table)
    (values : Table) : Except RError Unit × List Table :=
  let col_names := colNamesOf values
  if col_names.all (fun n => decide (n ∈ schema_names)) &&
      schema_names.all (fun n => decide (n ∈ col_names)) then
    (.ok (), store ++ [schema_names.map (fun n => (n, (values.lookup n).getD []))])
  else
    (.error .schemaMismatch, store)

/-- Translated from `SOMADataFrame$read` (src/apis/r/R/TileDBGroup.R lines
412-435): the `stopifnot` check that `column_names`, when given, only contains
valid dimension or attribute columns. -/
def read_column_check (dims attrs : List String)
    (column_names : Option (List String)) : Bool :=
  match column_names with
  | none => true
  | some ns => ns.all (fun n => decide (n ∈ dims ++ attrs))

/-- Modelled from the spec (§4.2 `selectColumns`): the column restriction the
C++ `soma_reader` core applies — output is restricted to the named columns,
defaulting to all columns; that core is not among the shipped sources. -/
def selectColumns (allCols : List String)
    (column_names : Option (List String)) : List String :=
  match column_names with
  | none => allCols
  | some ns => ns

/-- `SOMADataFrame$read` restricted to its column-selection behaviour: the
translated schema check, then the spec-modelled restriction. -/
def SOMADataFrame_read (dims attrs : List String)
    (column_names : Option (List String)) : Except RError (List String) :=
  if read_column_check dims attrs column_names
  then .ok (selectColumns (dims ++ attrs) column_names)
  else .error .unknownColumn

/-- Translated from `TileDBArray$set_query` (src/apis/r/R/TileDBArray.R lines
133-153): each point-selection vector `x` becomes `unname(cbind(x, x))`, a
matrix whose rows are the degenerate inclusive ranges `(x[i], x[i])`. -/
def pointsToRanges {α : Type} (x : List α) : List (α × α) :=
  x.map (fun v => (v, v))

/-- Translated from `TileDBArray$set_query`: `modifyList(list(), dims)`
discards `NULL` elements; if any dimensions remain, `selected_ranges` is
assigned the per-dimension range matrices, otherwise the previously installed
ranges are left as they were. -/
def set_query {α : Type} (current : List (String × List (α × α)))
    (dims : List (String × Option (List α))) : List (String × List (α × α)) :=
  let kept := dims.filterMap (fun p => p.2.map (fun v => (p.1, v)))
  if kept.isEmpty then current
  else kept.map (fun p => (p.1, pointsToRanges p.2))

/-- A value matches a list of inclusive ranges iff it lies in one of them
(ranges are unioned within a dimension). -/
def inRanges {α : Type} [LinearOrder α] (rs : List (α × α)) (v : α) : Bool :=
  rs.any (fun r => decide (r.1 ≤ v) && decide (v ≤ r.2))

end RApi

/-! ## Theorems -/

namespace RApi

/-- C7: `selectColumns(names)` — the `column_names` argument of
`SOMADataFrame$read` — selects all columns when no names are given, succeeds
and restricts output to exactly the named columns when every name is a
dimension or attribute of the schema, and fails with the unknown-column error
when some name is not in the schema. -/
theorem read_selects_columns (dims attrs ns : List String) :
    SOMADataFrame_read dims attrs none = .ok (dims ++ attrs) ∧
    ((∀ n ∈ ns, n ∈ dims ++ attrs) →
      SOMADataFrame_read dims attrs (some ns) = .ok ns) ∧
    ((∃ n ∈ ns, n ∉ dims ++ attrs) →
      SOMADataFrame_read dims attrs (some ns) = .error .unknownColumn) := by
  refine ⟨rfl, ?_, ?_⟩
  · intro h
    have hc : read_column_check dims attrs (some ns) = true := by
      simpa [read_column_check, List.all_eq_true] using h
    simp [SOMADataFrame_read, hc, selectColumns]
  · rintro ⟨n, hn, hnot⟩
    have hc : read_column_check dims attrs (some ns) = false := by
      rw [Bool.eq_false_iff]
      intro hall
      simp only [read_column_check, List.all_eq_true, decide_eq_true_eq] at hall
      exact hnot (hall n hn)
    simp [SOMADataFrame_read, hc]

theorem read_selects_columns_witness :
    SOMADataFrame_read ["d"] ["a", "b"] (some ["b", "d"]) = .ok ["b", "d"] ∧
    SOMADataFrame_read ["d"] ["a", "b"] (some ["q"]) = .error .unknownColumn :=
  ⟨(read_selects_columns ["d"] ["a", "b"] ["b", "d"]).2.1 (by decide),
   (read_selects_columns ["d"] ["a", "b"] ["q"]).2.2 ⟨"q", by decide, by decide⟩⟩

/-- C8: `TileDBArray$set_query` encodes each point-selection value `x` as the
degenerate inclusive range `(x, x)`: for every named list of point selections
the installed selected ranges consist of exactly one `(x, x)` pair per point
value, and a value lies in the union of those ranges iff it equals one of the
points. -/
theorem set_query_points_as_ranges {α : Type} [LinearOrder α]
    (current : List (String × List (α × α))) (dims : List (String × List α))
    (hne : dims ≠ []) :
    set_query current (dims.map (fun p => (p.1, some p.2))) =
      dims.map (fun p => (p.1, p.2.map (fun x => (x, x)))) ∧
    ∀ (x : List α) (v : α), inRanges (pointsToRanges x) v = true ↔ v ∈ x := by
  constructor
  · have hkept : (dims.map (fun p => (p.1, some p.2))).filterMap
        (fun p => p.2.map (fun v => (p.1, v))) = dims := by
      rw [List.filterMap_map]
      simp [Function.comp_def]
    simp only [set_query, hkept]
    rw [if_neg (by simpa [List.isEmpty_iff] using hne)]
    rfl
  · intro x v
    constructor
    · intro h
      simp only [inRanges, List.any_eq_true] at h
      obtain ⟨p, hp, hpv⟩ := h
      simp only [pointsToRanges, List.mem_map] at hp
      obtain ⟨w, hw, rfl⟩ := hp
      rw [Bool.and_eq_true, decide_eq_true_eq, decide_eq_true_eq] at hpv
      have hvw : v = w := le_antisymm hpv.2 hpv.1
      exact hvw ▸ hw
    · intro hv
      simp only [inRanges, List.any_eq_true]
      refine ⟨(v, v), ?_, ?_⟩
      · simp only [pointsToRanges, List.mem_map]
        exact ⟨v, hv, rfl⟩
      · simp

theorem set_query_points_as_ranges_witness :
    set_query ([] : List (String × List (Int × Int))) [("d", some [3, 5])] =
      [("d", [(3, 3), (5, 5)])] ∧
    inRanges (pointsToRanges [(3 : Int), 5]) 3 = true := by
  have h := set_query_points_as_ranges ([] : List (String × List (Int × Int)))
    [("d", [3, 5])] (by decide)
  exact ⟨by simpa using h.1, (h.2 [3, 5] 3).mpr (by decide)⟩

/-- C10: `SOMADataFrame$write` accepts a table exactly when its column-name
set equals the schema's column set in both directions; on any mismatch it
fails with the schema-mismatch error before opening the array, leaving the
stored fragments unchanged. -/
theorem write_schema_match (schema_names : List String) (store : List Table)
    (values : Table) :
    ((SOMADataFrame_write schema_names store values).1 = .ok () ↔
      ((∀ n ∈ colNamesOf values, n ∈ schema_names) ∧
        (∀ n ∈ schema_names, n ∈ colNamesOf values))) ∧
    ((SOMADataFrame_write schema_names store values).1 ≠ .ok () →
      SOMADataFrame_write schema_names store values = (.error .schemaMismatch, store)) := by
  by_cases h : ((colNamesOf values).all (fun n => decide (n ∈ schema_names)) &&
      schema_names.all (fun n => decide (n ∈ colNamesOf values))) = true
  · have hprop := h
    rw [Bool.and_eq_true] at hprop
    simp only [List.all_eq_true, decide_eq_true_eq] at hprop
    constructor
    · simp only [SOMADataFrame_write, if_pos h]
      exact ⟨fun _ => hprop, fun _ => trivial⟩
    · intro hne
      exact absurd (by simp only [SOMADataFrame_write, if_pos h]) hne
  · have hprop : ¬ ((∀ n ∈ colNamesOf values, n ∈ schema_names) ∧
        (∀ n ∈ schema_names, n ∈ colNamesOf values)) := by
      intro hc
      apply h
      rw [Bool.and_eq_true]
      simp only [List.all_eq_true, decide_eq_true_eq]
      exact hc
    constructor
    · simp only [SOMADataFrame_write, if_neg h]
      constructor
      · intro hbad
        exact absurd hbad (by simp)
      · intro hc
        exact absurd hc hprop
    · intro _
      simp only [SOMADataFrame_write, if_neg h]

theorem write_schema_match_witness :
    (SOMADataFrame_write ["d", "a"] [] [("a", [3]), ("d", [1])]).1 = .ok () ∧
    SOMADataFrame_write ["d", "a"] [] [("a", [3])] = (.error .schemaMismatch, []) :=
  ⟨(write_schema_match ["d", "a"] [] [("a", [3]), ("d", [1])]).1.mpr
      ⟨by decide, by decide⟩,
   (write_schema_match ["d", "a"] [] [("a", [3])]).2 (by decide)⟩

end RApi

namespace RApi

lemma validate_schema_ok_cases {schema : Schema} {icn : List String} {s' : Schema}
    (h : validate_schema schema icn = .ok s') :
    (s' = schema ∧ ∃ f, schema.find? (fun g => g.name == "soma_joinid") = some f ∧
        f.typ = ArrowType.int64) ∨
    (s' = { name := "soma_joinid", typ := ArrowType.int64 } :: schema ∧
      schema.find? (fun g => g.name == "soma_joinid") = none) := by
  unfold validate_schema at h
  split_ifs at h
  split at h
  · rename_i f hf
    split_ifs at h with ht
    left
    have hs : schema = s' := by simpa using h
    exact ⟨hs.symm, f, hf, ht⟩
  · rename_i hf
    right
    have hs : { name := "soma_joinid", typ := ArrowType.int64 } :: schema = s' := by
      simpa using h
    exact ⟨hs.symm, hf⟩

lemma validate_schema_prefix_error {schema : Schema} {icn : List String}
    (hbad : ∃ f, f ∈ schema ∧ f.name ≠ "soma_joinid" ∧ strStartsWith f.name "soma_" = true) :
    (validate_schema schema icn).isOk = false := by
  obtain ⟨f, hmem, hname, hsw⟩ := hbad
  unfold validate_schema
  split_ifs with h1 h2 h3 <;> try rfl
  exfalso
  rw [List.all_eq_true] at h3
  have hfn : f.name ∈ (schemaNames schema).filter (fun n => decide (n ≠ "soma_joinid")) :=
    List.mem_filter.mpr ⟨List.mem_map.mpr ⟨f, hmem, rfl⟩, by simp [hname]⟩
  have hb := h3 _ hfn
  rw [Bool.not_eq_true', hsw] at hb
  exact Bool.true_eq_false.mp hb

lemma create_ok_validate {schema : Schema} {icn : List String} {s' : Schema}
    (h : SOMADataFrame_create schema icn = .ok s') :
    validate_schema schema icn = .ok s' := by
  unfold SOMADataFrame_create at h
  split at h
  · simp at h
  · rename_i s hv
    split_ifs at h
    rw [← h]
    exact hv

/-- C9: `SOMADataFrame$create`'s schema validation guarantees a `soma_joinid`
column of Arrow type int64 in every created dataframe's schema: on success the
validated schema contains such a field; if the input schema lacks
`soma_joinid`, the field is added at position 0; if the schema's
`soma_joinid` field has a type other than int64, create fails; and create
also fails when any other column name starts with the reserved prefix
`soma_`. -/
theorem create_schema_validation (schema : Schema) (icn : List String) :
    (∀ s', SOMADataFrame_create schema icn = .ok s' →
      ∃ f, f ∈ s' ∧ f.name = "soma_joinid" ∧ f.typ = ArrowType.int64) ∧
    ("soma_joinid" ∉ schemaNames schema →
      ∀ s', SOMADataFrame_create schema icn = .ok s' →
        s'.head? = some { name := "soma_joinid", typ := ArrowType.int64 }) ∧
    (∀ f, schema.find? (fun g => g.name == "soma_joinid") = some f →
      f.typ ≠ ArrowType.int64 → (SOMADataFrame_create schema icn).isOk = false) ∧
    ((∃ f, f ∈ schema ∧ f.name ≠ "soma_joinid" ∧ strStartsWith f.name "soma_" = true) →
      (SOMADataFrame_create schema icn).isOk = false) := by
  refine ⟨?_, ?_, ?_, ?_⟩
  · intro s' hok
    rcases validate_schema_ok_cases (create_ok_validate hok) with ⟨rfl, f, hf, ht⟩ | ⟨rfl, _⟩
    · refine ⟨f, List.mem_of_find?_eq_some hf, ?_, ht⟩
      simpa using List.find?_some hf
    · exact ⟨_, List.mem_cons_self _ _, rfl, rfl⟩
  · intro habs s' hok
    rcases validate_schema_ok_cases (create_ok_validate hok) with ⟨rfl, f, hf, _⟩ | ⟨rfl, _⟩
    · exfalso
      apply habs
      have hn : f.name = "soma_joinid" := by simpa using List.find?_some hf
      exact List.mem_map.mpr ⟨f, List.mem_of_find?_eq_some hf, hn⟩
    · rfl
  · intro f hfind htyp
    rcases hc : SOMADataFrame_create schema icn with e | s'
    · rfl
    · exfalso
      rcases validate_schema_ok_cases (create_ok_validate hc) with ⟨_, g, hg, ht⟩ | ⟨_, hnone⟩
      · rw [hfind] at hg
        obtain rfl : g = f := by simpa using hg.symm
        exact htyp ht
      · rw [hfind] at hnone
        exact Option.noConfusion hnone
  · intro hbad
    rcases hc : SOMADataFrame_create schema icn with e | s'
    · rfl
    · exfalso
      have hv := create_ok_validate hc
      have hpe := @validate_schema_prefix_error schema icn hbad
      rw [hv] at hpe
      simp [Except.isOk, Except.toBool] at hpe

theorem create_schema_validation_witness :
    ([{ name := "soma_joinid", typ := ArrowType.int64 },
      { name := "d", typ := ArrowType.int64 },
      { name := "a", typ := ArrowType.utf8 }] : Schema).head? =
        some { name := "soma_joinid", typ := ArrowType.int64 } ∧
    (SOMADataFrame_create [{ name := "soma_x", typ := ArrowType.int64 },
      { name := "d", typ := ArrowType.int64 }] ["d"]).isOk = false :=
  ⟨(create_schema_validation
      [{ name := "d", typ := ArrowType.int64 }, { name := "a", typ := ArrowType.utf8 }]
      ["d"]).2.1 (by decide) _ (by decide),
   (create_schema_validation
      [{ name := "soma_x", typ := ArrowType.int64 }, { name := "d", typ := ArrowType.int64 }]
      ["d"]).2.2.2
      ⟨{ name := "soma_x", typ := ArrowType.int64 }, by decide, by decide, by decide⟩⟩

end RApi

namespace SpecModel

/-- C5: once a ManagedQuery has reached the submitted-complete state, that
state is terminal — any further `submit()` or `resume()` call fails with
`QueryAlreadyComplete` and the query is unchanged by the failed call. -/
theorem complete_state_terminal (fuel : Nat) (q : Query)
    (h : q.state = QState.complete) :
    submitMQ fuel q = (.error .QueryAlreadyComplete, q) ∧
    resumeMQ fuel q = (.error .QueryAlreadyComplete, q) := by
  unfold submitMQ resumeMQ
  rw [h]
  exact ⟨rfl, rfl⟩

theorem complete_state_terminal_witness :
    submitMQ 5 ⟨[], [4], 8, 0, QState.complete⟩ =
      (.error .QueryAlreadyComplete, ⟨[], [4], 8, 0, QState.complete⟩) ∧
    resumeMQ 5 ⟨[], [4], 8, 0, QState.complete⟩ =
      (.error .QueryAlreadyComplete, ⟨[], [4], 8, 0, QState.complete⟩) :=
  complete_state_terminal 5 ⟨[], [4], 8, 0, QState.complete⟩ rfl

/-- C6: `isComplete()` (`sr_complete` in the bindings) is a pure observer —
any number of calls between two `readNext()` calls returns the same boolean
each time and leaves the reader (and its ManagedQuery) unchanged. -/
theorem isComplete_pure_observer (n : Nat) (r : Reader) :
    iterComplete n r = (List.replicate n (isComplete r), r) := by
  induction n with
  | zero => rfl
  | succ n ih => simp [iterComplete, sr_complete, ih, List.replicate_succ]

end SpecModel

namespace SpecModel

lemma offsetsFrom_length (cs : List Cell) : ∀ s, (offsetsFrom s cs).length = cs.length + 1 := by
  induction cs with
  | nil => intro s; rfl
  | cons c cs ih =>
    intro s
    simp only [offsetsFrom, List.length_cons, ih]

lemma offsetsFrom_getLast (cs : List Cell) : ∀ s,
    (offsetsFrom s cs).getLast? = some (s + cs.flatten.length) := by
  induction cs with
  | nil =>
    intro s
    simp [offsetsFrom]
  | cons c cs ih =>
    intro s
    have h1 : offsetsFrom s (c :: cs) = s :: offsetsFrom (s + c.length) cs := rfl
    rcases hcs : offsetsFrom (s + c.length) cs with _ | ⟨x, xs⟩
    · exfalso
      have hl := offsetsFrom_length cs (s + c.length)
      rw [hcs] at hl
      simp at hl
    · rw [h1, hcs, List.getLast?_cons_cons, ← hcs, ih]
      have harith : s + c.length + cs.flatten.length = s + (c :: cs).flatten.length := by
        rw [List.flatten_cons, List.length_append]
        omega
      rw [harith]

/-- C3: every batch returned by `readNext()` packages into interchange columns
that all report the batch's row count, and every variable-length column's
offsets segment has row-count + 1 entries whose last entry equals the byte
length of that column's data segment. -/
theorem batch_column_invariants (metas : List ColumnMeta) (fuel : Nat)
    (rd rd' : Reader) (b : List Row)
    (h : readNext fuel rd = .ok (some b, rd')) :
    batchWellFormed (packBatch metas b) b.length = true := by
  clear h
  rw [batchWellFormed, List.all_eq_true]
  intro c hc
  rw [packBatch, List.mem_map] at hc
  obtain ⟨⟨j, m⟩, hjm, rfl⟩ := hc
  have hlen : (colCells b j).length = b.length := by simp [colCells]
  cases hv : m.isVar
  · simp [packColumn, hv, hlen]
  · simp [packColumn, hv, hlen, offsetsFrom_length, offsetsFrom_getLast]

theorem batch_column_invariants_witness :
    readNext 1 (openReader [[[1], [10, 11]], [[2], [12]]] [2, 3] 100) =
      .ok (some [[[1], [10, 11]], [[2], [12]]],
        ⟨{ rows := [[[1], [10, 11]], [[2], [12]]], caps := [2, 3], maxCap := 100,
           pos := 2, state := QState.complete }⟩) ∧
    batchWellFormed
      (packBatch [⟨"obs_id", false⟩, ⟨"val", true⟩] [[[1], [10, 11]], [[2], [12]]])
      2 = true :=
  ⟨by decide,
   batch_column_invariants [⟨"obs_id", false⟩, ⟨"val", true⟩] 1
     (openReader [[[1], [10, 11]], [[2], [12]]] [2, 3] 100)
     ⟨{ rows := [[[1], [10, 11]], [[2], [12]]], caps := [2, 3], maxCap := 100,
        pos := 2, state := QState.complete }⟩
     [[[1], [10, 11]], [[2], [12]]] (by decide)⟩

end SpecModel

namespace SpecModel

lemma getD_range_map (f : Nat → Nat) (n j d : Nat) (hj : j < n) :
    (((List.range n).map f).getD j d) = f j := by
  rw [List.getD_eq_getElem?_getD, List.getElem?_map, List.getElem?_range hj]
  rfl

lemma getD_zeros (caps : List Nat) (j : Nat) :
    ((caps.map (fun _ => (0 : Nat))).getD j 0) = 0 := by
  rw [List.getD_eq_getElem?_getD, List.getElem?_map]
  cases caps[j]? <;> rfl

lemma addRowBytes_zeros_getD (caps : List Nat) (r : Row) (j : Nat)
    (hj : j < caps.length) :
    (addRowBytes caps (caps.map (fun _ => 0)) r).getD j 0 = cellBytes r j := by
  rw [addRowBytes, getD_range_map _ _ _ _ hj, getD_zeros, Nat.zero_add]

lemma firstRow_cond (caps : List Nat) (r : Row) :
    ((List.range caps.length).all
      (fun j => (addRowBytes caps (caps.map (fun _ => 0)) r).getD j 0 ≤ caps.getD j 0)) =
    rowFits caps r := by
  rw [Bool.eq_iff_iff]
  simp only [rowFits, List.all_eq_true, List.mem_range, decide_eq_true_eq]
  constructor
  · intro h j hj
    have hh := h j hj
    rwa [addRowBytes_zeros_getD caps r j hj] at hh
  · intro h j hj
    rw [addRowBytes_zeros_getD caps r j hj]
    exact h j hj

lemma fitCount_cons_eq_zero (caps : List Nat) (r : Row) (rest : List Row) :
    fitCount caps (r :: rest) = 0 ↔ rowFits caps r = false := by
  rw [fitCount, fitCountAux, firstRow_cond]
  cases h : rowFits caps r <;> simp [h]

lemma fitCountAux_le_length (caps : List Nat) :
    ∀ (pending : List Row) (used : List Nat), fitCountAux caps used pending ≤ pending.length := by
  intro pending
  induction pending with
  | nil => intro used; simp [fitCountAux]
  | cons r rest ih =>
    intro used
    rw [fitCountAux]
    split_ifs
    · have := ih (addRowBytes caps used r)
      simp only [List.length_cons]
      omega
    · simp

lemma fitCount_le_length (caps : List Nat) (pending : List Row) :
    fitCount caps pending ≤ pending.length :=
  fitCountAux_le_length caps pending _

lemma growCaps_length (caps : List Nat) (r : Row) (maxCap : Nat) :
    (growCaps caps r maxCap).length = caps.length := by
  simp [growCaps]

lemma growCaps_getD (caps : List Nat) (r : Row) (maxCap j : Nat) (hj : j < caps.length) :
    (growCaps caps r maxCap).getD j 0 =
      if caps.getD j 0 < cellBytes r j
      then min (caps.getD j 0 * 2) maxCap
      else caps.getD j 0 := by
  rw [growCaps, getD_range_map _ _ _ _ hj]

lemma growCaps_le_ceiling (caps : List Nat) (r : Row) (maxCap : Nat)
    (hle : ∀ j, j < caps.length → caps.getD j 0 ≤ maxCap) :
    ∀ j, j < (growCaps caps r maxCap).length → (growCaps caps r maxCap).getD j 0 ≤ maxCap := by
  intro j hj
  rw [growCaps_length] at hj
  rw [growCaps_getD caps r maxCap j hj]
  split_ifs
  · exact min_le_right _ _
  · exact hle j hj

lemma submitLoop_ok_batch_ne_nil (maxCap : Nat) :
    ∀ (fuel : Nat) (r : Row) (rest : List Row) (caps : List Nat)
      (batch : List Row) (caps' : List Nat),
    submitLoop maxCap fuel (r :: rest) caps = .ok (batch, caps') → batch ≠ [] := by
  intro fuel
  induction fuel with
  | zero =>
    intro r rest caps batch caps' h
    exact absurd h (by simp [submitLoop])
  | succ f ih =>
    intro r rest caps batch caps' h
    rw [submitLoop] at h
    split_ifs at h with h0 hg
    · exact ih r rest (growCaps caps r maxCap) batch caps' h
    · have hpair : batch = (r :: rest).take (fitCount caps (r :: rest)) ∧ caps' = caps := by
        simpa using h.symm
      have hbatch := hpair.1
      rw [hbatch, Ne, List.take_eq_nil_iff]
      push_neg
      exact ⟨h0, List.cons_ne_nil r rest⟩

lemma submitLoop_too_large (maxCap : Nat) (r : Row) :
    ∀ (fuel : Nat) (rest : List Row) (caps : List Nat),
    (∀ j, j < caps.length → caps.getD j 0 ≤ maxCap) →
    (∃ j, j < caps.length ∧ maxCap < cellBytes r j) →
    submitLoop maxCap fuel (r :: rest) caps = .error .RowTooLarge := by
  intro fuel
  induction fuel with
  | zero =>
    intro rest caps _ _
    simp [submitLoop]
  | succ f ih =>
    intro rest caps hle hbig
    obtain ⟨j, hj, hjbig⟩ := hbig
    have hnf : rowFits caps r = false := by
      rw [rowFits, List.all_eq_false]
      refine ⟨j, List.mem_range.mpr hj, ?_⟩
      simp only [decide_eq_true_eq]
      have := hle j hj
      omega
    have h0 : fitCount caps (r :: rest) = 0 :=
      (fitCount_cons_eq_zero caps r rest).mpr hnf
    rw [submitLoop, if_pos h0]
    split_ifs with hg
    · rfl
    · exact ih rest (growCaps caps r maxCap)
        (growCaps_le_ceiling caps r maxCap hle)
        ⟨j, by rw [growCaps_length]; exact hj, hjbig⟩

lemma submitLoop_retry (maxCap g : Nat) (r : Row) (rest : List Row) (caps : List Nat)
    (h0 : fitCount caps (r :: rest) = 0) (hne : growCaps caps r maxCap ≠ caps) :
    submitLoop maxCap (g + 1) (r :: rest) caps =
      submitLoop maxCap g (r :: rest) (growCaps caps r maxCap) := by
  rw [submitLoop, if_pos h0, if_neg hne]

end SpecModel

namespace SpecModel

lemma resumeMQ_eq_submitMQ (fuel : Nat) (q : Query) : resumeMQ fuel q = submitMQ fuel q := rfl

lemma stepQuery_ok_elim {fuel : Nat} {q : Query} {batch : List Row} {q' : Query}
    (h : stepQuery fuel q = .ok (batch, q')) :
    ∃ caps', submitLoop q.maxCap fuel (q.rows.drop q.pos) q.caps = .ok (batch, caps') ∧
      q' = { q with
             pos := q.pos + batch.length
             caps := caps'
             state := if q.pos + batch.length = q.rows.length then QState.complete
                      else QState.incomplete } := by
  unfold stepQuery at h
  split at h
  · simp at h
  · rename_i b c hsl
    have hbq : b = batch ∧
        ({ rows := q.rows, caps := c, maxCap := q.maxCap, pos := q.pos + b.length,
           state := if q.pos + b.length = q.rows.length then QState.complete
                    else QState.incomplete } : Query) = q' := by
      simpa using h
    obtain ⟨rfl, hq⟩ := hbq
    exact ⟨c, hsl, hq.symm⟩

lemma stepQuery_error_elim {fuel : Nat} {q : Query} {e : EngineError}
    (h : submitLoop q.maxCap fuel (q.rows.drop q.pos) q.caps = .error e) :
    stepQuery fuel q = .error e := by
  unfold stepQuery
  rw [h]

lemma submitMQ_ok_elim {fuel : Nat} {q : Query} {batch : List Row} {q' : Query}
    (h : submitMQ fuel q = (.ok batch, q')) : stepQuery fuel q = .ok (batch, q') := by
  unfold submitMQ at h
  split at h
  · simp at h
  · split at h
    · simp at h
    · rename_i b q2 hst
      have hbq : b = batch ∧ q2 = q' := by simpa using h
      obtain ⟨rfl, rfl⟩ := hbq
      exact hst

lemma submitMQ_error_of_step {fuel : Nat} {q : Query} {e : EngineError}
    (hs : q.state ≠ QState.complete) (he : stepQuery fuel q = .error e) :
    submitMQ fuel q = (.error e, q) := by
  unfold submitMQ
  split
  · rename_i hc
    exact absurd hc hs
  · rw [he]

/-- C2: the internal growth policy of `submit()`/`resume()`: a zero-row
truncated submission doubles the undersized column's capacity and retries
before returning a batch, every batch delivered from a non-empty pending
result is non-empty, and when the capacity a row needs exceeds the hard
ceiling the call fails with `RowTooLarge`. -/
theorem growth_policy (fuel : Nat) (q : Query) :
    (∀ batch q', submitMQ fuel q = (.ok batch, q') →
      q.rows.drop q.pos ≠ [] → batch ≠ []) ∧
    (∀ batch q', resumeMQ fuel q = (.ok batch, q') →
      q.rows.drop q.pos ≠ [] → batch ≠ []) ∧
    (∀ (g : Nat) (r : Row) (rest : List Row) (caps : List Nat),
      fitCount caps (r :: rest) = 0 → growCaps caps r q.maxCap ≠ caps →
      submitLoop q.maxCap (g + 1) (r :: rest) caps =
        submitLoop q.maxCap g (r :: rest) (growCaps caps r q.maxCap)) ∧
    (∀ (r : Row) (rest : List Row), q.rows.drop q.pos = r :: rest →
      (∀ j, j < q.caps.length → q.caps.getD j 0 ≤ q.maxCap) →
      (∃ j, j < q.caps.length ∧ q.maxCap < cellBytes r j) →
      q.state ≠ QState.complete →
      submitMQ fuel q = (.error .RowTooLarge, q)) := by
  have hok : ∀ batch q', submitMQ fuel q = (.ok batch, q') →
      q.rows.drop q.pos ≠ [] → batch ≠ [] := by
    intro batch q' h hp
    obtain ⟨caps', hsl, _⟩ := stepQuery_ok_elim (submitMQ_ok_elim h)
    obtain ⟨r, rest, hdrop⟩ := List.exists_cons_of_ne_nil hp
    rw [hdrop] at hsl
    exact submitLoop_ok_batch_ne_nil q.maxCap fuel r rest q.caps batch caps' hsl
  refine ⟨hok, ?_, ?_, ?_⟩
  · intro batch q' h hp
    rw [resumeMQ_eq_submitMQ] at h
    exact hok batch q' h hp
  · intro g r rest caps h0 hne
    exact submitLoop_retry q.maxCap g r rest caps h0 hne
  · intro r rest hdrop hle hbig hs
    apply submitMQ_error_of_step hs
    apply stepQuery_error_elim
    rw [hdrop]
    exact submitLoop_too_large q.maxCap r fuel rest q.caps hle hbig

theorem growth_policy_witness :
    submitMQ 10 ⟨[[[9, 9, 9, 9, 9]]], [1], 3, 0, QState.unsubmitted⟩ =
      (.error .RowTooLarge, ⟨[[[9, 9, 9, 9, 9]]], [1], 3, 0, QState.unsubmitted⟩) ∧
    submitLoop 3 (1 + 1) [[[7, 7]]] [1] = submitLoop 3 1 [[[7, 7]]] (growCaps [1] [[7, 7]] 3) :=
  ⟨(growth_policy 10 ⟨[[[9, 9, 9, 9, 9]]], [1], 3, 0, QState.unsubmitted⟩).2.2.2
      [[9, 9, 9, 9, 9]] [] (by decide) (by decide) ⟨0, by decide, by decide⟩ (by decide),
   (growth_policy 10 ⟨[[[9, 9, 9, 9, 9]]], [1], 3, 0, QState.unsubmitted⟩).2.2.1
      1 [[7, 7]] [] [1] (by decide) (by decide)⟩

end SpecModel

namespace SpecModel

lemma submitLoop_of_fits (maxCap : Nat) (r : Row) (rest : List Row) (caps : List Nat)
    (hf : rowFits caps r = true) (fuel : Nat) (hfuel : 1 ≤ fuel) :
    submitLoop maxCap fuel (r :: rest) caps =
      .ok ((r :: rest).take (fitCount caps (r :: rest)), caps) := by
  have hn : ¬ fitCount caps (r :: rest) = 0 := by
    rw [fitCount_cons_eq_zero]
    simp [hf]
  cases fuel with
  | zero => omega
  | succ f => rw [submitLoop, if_neg hn]

lemma readBatches_flatten (fuel : Nat) (hfuel : 1 ≤ fuel) :
    ∀ (k : Nat) (rd : Reader),
    (∀ row ∈ rd.q.rows, rowFits rd.q.caps row = true) →
    rd.q.pos ≤ rd.q.rows.length →
    (rd.q.state = QState.complete → rd.q.pos = rd.q.rows.length) →
    rd.q.rows.length - rd.q.pos < k →
    ∃ bs rd2, readBatches fuel k rd = .ok (bs, rd2) ∧
      bs.flatten = rd.q.rows.drop rd.q.pos := by
  intro k
  induction k with
  | zero =>
    intro rd _ _ _ hk
    omega
  | succ k ih =>
    intro rd hfit hpos hcomp hk
    by_cases hc : rd.q.state = QState.complete
    · have hdrop : rd.q.rows.drop rd.q.pos = [] := by
        rw [hcomp hc]
        simp
      have hread : readNext fuel rd = .ok (none, rd) := by
        rw [readNext, if_pos hc]
      refine ⟨[], rd, ?_, by simp [hdrop]⟩
      rw [readBatches, hread]
    · rcases hdrop : rd.q.rows.drop rd.q.pos with _ | ⟨r, rest⟩
      · -- nothing pending: one submission returns the empty final batch
        have hsl : submitLoop rd.q.maxCap fuel (rd.q.rows.drop rd.q.pos) rd.q.caps =
            .ok ([], rd.q.caps) := by
          rw [hdrop]
          cases fuel <;> rfl
        have hst : stepQuery fuel rd.q = .ok ([],
            { rd.q with
              pos := rd.q.pos + ([] : List Row).length
              caps := rd.q.caps
              state := if rd.q.pos + ([] : List Row).length = rd.q.rows.length
                       then QState.complete else QState.incomplete }) := by
          unfold stepQuery
          rw [hsl]
        have hread : readNext fuel rd = .ok (none, ⟨{ rd.q with
            pos := rd.q.pos + ([] : List Row).length
            caps := rd.q.caps
            state := if rd.q.pos + ([] : List Row).length = rd.q.rows.length
                     then QState.complete else QState.incomplete }⟩) := by
          rw [readNext, if_neg hc, hst]
          dsimp only
          rfl
        refine ⟨[], ⟨{ rd.q with
            pos := rd.q.pos + ([] : List Row).length
            caps := rd.q.caps
            state := if rd.q.pos + ([] : List Row).length = rd.q.rows.length
                     then QState.complete else QState.incomplete }⟩, ?_, by simp [hdrop]⟩
        rw [readBatches, hread]
      · -- a row is pending and it fits: the engine returns a non-empty batch
        have hr : r ∈ rd.q.rows :=
          List.mem_of_mem_drop (hdrop ▸ List.mem_cons_self r rest)
        have hfitr : rowFits rd.q.caps r = true := hfit r hr
        have hsl := submitLoop_of_fits rd.q.maxCap r rest rd.q.caps hfitr fuel hfuel
        have hpend : (rd.q.rows.drop rd.q.pos).length = rd.q.rows.length - rd.q.pos := by
          simp [List.length_drop]
        have hplen : (r :: rest).length = rd.q.rows.length - rd.q.pos := by
          rw [← hdrop, hpend]
        have hnz : fitCount rd.q.caps (r :: rest) ≠ 0 := by
          rw [Ne, fitCount_cons_eq_zero]
          simp [hfitr]
        have hnle : fitCount rd.q.caps (r :: rest) ≤ (r :: rest).length :=
          fitCount_le_length rd.q.caps (r :: rest)
        have hlen : ((r :: rest).take (fitCount rd.q.caps (r :: rest))).length =
            fitCount rd.q.caps (r :: rest) := by
          rw [List.length_take]
          omega
        have hst : stepQuery fuel rd.q = .ok
            ((r :: rest).take (fitCount rd.q.caps (r :: rest)),
             { rd.q with
               pos := rd.q.pos + ((r :: rest).take (fitCount rd.q.caps (r :: rest))).length
               caps := rd.q.caps
               state := if rd.q.pos +
                           ((r :: rest).take (fitCount rd.q.caps (r :: rest))).length =
                           rd.q.rows.length
                        then QState.complete else QState.incomplete }) := by
          unfold stepQuery
          rw [hdrop, hsl]
        have hbne : (r :: rest).take (fitCount rd.q.caps (r :: rest)) ≠ [] := by
          rw [Ne, List.take_eq_nil_iff]
          push_neg
          exact ⟨hnz, List.cons_ne_nil r rest⟩
        have hread : readNext fuel rd = .ok
            (some ((r :: rest).take (fitCount rd.q.caps (r :: rest))),
             ⟨{ rd.q with
                pos := rd.q.pos + ((r :: rest).take (fitCount rd.q.caps (r :: rest))).length
                caps := rd.q.caps
                state := if rd.q.pos +
                            ((r :: rest).take (fitCount rd.q.caps (r :: rest))).length =
                            rd.q.rows.length
                         then QState.complete else QState.incomplete }⟩) := by
          rw [readNext, if_neg hc, hst]
          dsimp only
          rw [if_neg (show ¬ ((r :: rest).take
              (fitCount rd.q.caps (r :: rest))).isEmpty = true from
            by simpa [List.isEmpty_iff] using hbne)]
        obtain ⟨bs, rd2, hrb, hflat⟩ := ih
          ⟨{ rd.q with
             pos := rd.q.pos + ((r :: rest).take (fitCount rd.q.caps (r :: rest))).length
             caps := rd.q.caps
             state := if rd.q.pos +
                         ((r :: rest).take (fitCount rd.q.caps (r :: rest))).length =
                         rd.q.rows.length
                      then QState.complete else QState.incomplete }⟩
          (fun row hrow => hfit row hrow)
          (by dsimp only; rw [hlen]; omega)
          (by
            intro hcs
            dsimp only at hcs ⊢
            rw [hlen] at hcs ⊢
            by_cases hcond : rd.q.pos + fitCount rd.q.caps (r :: rest) = rd.q.rows.length
            · exact hcond
            · rw [if_neg hcond] at hcs
              exact absurd hcs (by simp))
          (by dsimp only; rw [hlen]; omega)
        refine ⟨(r :: rest).take (fitCount rd.q.caps (r :: rest)) :: bs, rd2, ?_, ?_⟩
        · rw [readBatches, hread]
          dsimp only
          rw [hrb]
        · dsimp only at hflat
          rw [List.flatten_cons, hflat, hlen, ← List.drop_drop, hdrop]
          exact List.take_append_drop _ (r :: rest)

/-- C1: for every query needing no buffer growth, the batches returned by
successive `readNext()` calls, concatenated in call order, equal exactly the
rows the storage engine would return for the same query executed unbatched,
in the same order. -/
theorem readNext_refines_unbatched (rows : List Row) (caps : List Nat)
    (maxCap fuel k : Nat)
    (hfit : ∀ row ∈ rows, rowFits caps row = true)
    (hfuel : 1 ≤ fuel) (hk : rows.length < k) :
    (readBatches fuel k (openReader rows caps maxCap)).map (fun p => p.1.flatten) =
      .ok (unbatchedQuery (openReader rows caps maxCap).q) := by
  obtain ⟨bs, rd2, hrb, hflat⟩ := readBatches_flatten fuel hfuel k (openReader rows caps maxCap)
    hfit (by simp [openReader]) (by intro h; simp [openReader] at h)
    (by simpa [openReader] using hk)
  rw [hrb]
  simp only [Except.map]
  rw [hflat]
  simp [openReader, unbatchedQuery]

theorem readNext_refines_unbatched_witness :
    (readBatches 1 3 (openReader [[[1], [10, 11]], [[2], [12]]] [2, 3] 100)).map
        (fun p => p.1.flatten) =
      .ok [[[1], [10, 11]], [[2], [12]]] :=
  readNext_refines_unbatched [[[1], [10, 11]], [[2], [12]]] [2, 3] 100 1 3
    (by decide) (by decide) (by decide)

end SpecModel

namespace SpecModel

lemma submitLoop_success (maxCap : Nat) (r : Row) (rest : List Row) :
    ∀ (fuel : Nat) (caps : List Nat),
    goodCaps maxCap caps →
    (∀ j, j < caps.length → cellBytes r j ≤ maxCap) →
    capsSlack maxCap caps < fuel →
    ∃ caps', submitLoop maxCap fuel (r :: rest) caps =
        .ok ((r :: rest).take (fitCount caps' (r :: rest)), caps') ∧
      fitCount caps' (r :: rest) ≠ 0 ∧
      caps'.length = caps.length ∧ goodCaps maxCap caps' ∧
      capsSlack maxCap caps' ≤ capsSlack maxCap caps := by
  intro fuel
  induction fuel with
  | zero =>
    intro caps _ _ hs
    omega
  | succ f ih =>
    intro caps hgood hcell hslack
    by_cases h0 : fitCount caps (r :: rest) = 0
    · have hnf : rowFits caps r = false := (fitCount_cons_eq_zero caps r rest).mp h0
      obtain ⟨j, hjmem, hjlt⟩ : ∃ j, j < caps.length ∧ caps.getD j 0 < cellBytes r j := by
        rw [rowFits, List.all_eq_false] at hnf
        obtain ⟨j, hjm, hp⟩ := hnf
        rw [List.mem_range] at hjm
        simp only [decide_eq_true_eq] at hp
        exact ⟨j, hjm, by omega⟩
      have hgt : caps.getD j 0 < (growCaps caps r maxCap).getD j 0 := by
        rw [growCaps_getD caps r maxCap j hjmem, if_pos hjlt, lt_min_iff]
        have h1 := (hgood j hjmem).1
        have h2 := hcell j hjmem
        omega
      have hchanged : growCaps caps r maxCap ≠ caps := by
        intro heq
        rw [heq] at hgt
        omega
      have hgood' : goodCaps maxCap (growCaps caps r maxCap) := by
        intro i hi
        rw [growCaps_length] at hi
        rw [growCaps_getD caps r maxCap i hi]
        split_ifs with hlt
        · have h1 := (hgood i hi).1
          have h2 := hcell i hi
          refine ⟨?_, min_le_right _ _⟩
          rw [le_min_iff]
          omega
        · exact hgood i hi
      have hslack' : capsSlack maxCap (growCaps caps r maxCap) < capsSlack maxCap caps := by
        rw [capsSlack, capsSlack, growCaps_length]
        apply Finset.sum_lt_sum
        · intro i hi
          rw [Finset.mem_range] at hi
          rw [growCaps_getD caps r maxCap i hi]
          split_ifs with hlt
          · have h2 := (hgood i hi).2
            have hm : caps.getD i 0 ≤ min (caps.getD i 0 * 2) maxCap := by
              rw [le_min_iff]
              omega
            omega
          · omega
        · refine ⟨j, Finset.mem_range.mpr hjmem, ?_⟩
          rw [growCaps_getD caps r maxCap j hjmem, if_pos hjlt]
          have h1 := (hgood j hjmem).1
          have h2 := hcell j hjmem
          have hmin : caps.getD j 0 < min (caps.getD j 0 * 2) maxCap := by
            rw [lt_min_iff]
            omega
          have hminle : min (caps.getD j 0 * 2) maxCap ≤ maxCap := min_le_right _ _
          omega
      rw [submitLoop, if_pos h0, if_neg hchanged]
      obtain ⟨caps', hloop, hn, hlen, hg, hs⟩ := ih (growCaps caps r maxCap) hgood'
        (by rw [growCaps_length]; exact hcell) (by omega)
      refine ⟨caps', hloop, hn, ?_, hg, by omega⟩
      rw [hlen, growCaps_length]
    · rw [submitLoop, if_neg h0]
      exact ⟨caps, rfl, h0, rfl, hgood, le_refl _⟩

end SpecModel

namespace SpecModel

lemma iterRead_of_complete (fuel : Nat) (rd : Reader) (hc : rd.q.state = QState.complete) :
    ∀ m, iterRead fuel m rd = .ok rd := by
  intro m
  induction m with
  | zero => rfl
  | succ m ih =>
    have hread : readNext fuel rd = .ok (none, rd) := by
      rw [readNext, if_pos hc]
    rw [iterRead, hread]
    exact ih

lemma readNext_step_good (fuel : Nat) (rd : Reader) (hg : ReaderGood fuel rd)
    (hc : ¬ rd.q.state = QState.complete) :
    ∃ ob rd2, readNext fuel rd = .ok (ob, rd2) ∧ ReaderGood fuel rd2 ∧
      (rd2.q.state = QState.complete ∨
        rd2.q.rows.length - rd2.q.pos < rd.q.rows.length - rd.q.pos) := by
  obtain ⟨hgc, hcell, hslk, hpos, hcomp⟩ := hg
  rcases hdrop : rd.q.rows.drop rd.q.pos with _ | ⟨r, rest⟩
  · have hpeq : rd.q.pos = rd.q.rows.length := by
      have hle := List.drop_eq_nil_iff.mp hdrop
      omega
    have hsl : submitLoop rd.q.maxCap fuel ([] : List Row) rd.q.caps =
        .ok ([], rd.q.caps) := by
      cases fuel <;> rfl
    have hread : readNext fuel rd = .ok (none, ⟨{ rd.q with state := QState.complete }⟩) := by
      rw [readNext, if_neg hc]
      unfold stepQuery
      rw [hdrop, hsl]
      simp [hpeq]
    refine ⟨none, ⟨{ rd.q with state := QState.complete }⟩, hread,
      ⟨hgc, hcell, hslk, ?_, ?_⟩, Or.inl rfl⟩
    · exact hpos
    · intro _
      exact hpeq
  · have hr : r ∈ rd.q.rows := List.mem_of_mem_drop (hdrop ▸ List.mem_cons_self r rest)
    have hcellr : ∀ j, j < rd.q.caps.length → cellBytes r j ≤ rd.q.maxCap := by
      intro j hj
      exact hcell r hr j hj
    obtain ⟨caps', hloop, hn, hlen, hg', hs'⟩ :=
      submitLoop_success rd.q.maxCap r rest fuel rd.q.caps hgc hcellr hslk
    have hplen : (r :: rest).length = rd.q.rows.length - rd.q.pos := by
      rw [← hdrop]
      simp [List.length_drop]
    have hnle : fitCount caps' (r :: rest) ≤ (r :: rest).length :=
      fitCount_le_length caps' (r :: rest)
    have hblen : ((r :: rest).take (fitCount caps' (r :: rest))).length =
        fitCount caps' (r :: rest) := by
      rw [List.length_take]
      omega
    have hst : stepQuery fuel rd.q = .ok
        ((r :: rest).take (fitCount caps' (r :: rest)),
         { rd.q with
           pos := rd.q.pos + ((r :: rest).take (fitCount caps' (r :: rest))).length
           caps := caps'
           state := if rd.q.pos + ((r :: rest).take (fitCount caps' (r :: rest))).length =
                       rd.q.rows.length
                    then QState.complete else QState.incomplete }) := by
      unfold stepQuery
      rw [hdrop, hloop]
    have hbne : (r :: rest).take (fitCount caps' (r :: rest)) ≠ [] := by
      rw [Ne, List.take_eq_nil_iff]
      push_neg
      exact ⟨hn, List.cons_ne_nil r rest⟩
    have hread : readNext fuel rd = .ok
        (some ((r :: rest).take (fitCount caps' (r :: rest))),
         ⟨{ rd.q with
            pos := rd.q.pos + ((r :: rest).take (fitCount caps' (r :: rest))).length
            caps := caps'
            state := if rd.q.pos + ((r :: rest).take (fitCount caps' (r :: rest))).length =
                        rd.q.rows.length
                     then QState.complete else QState.incomplete }⟩) := by
      rw [readNext, if_neg hc, hst]
      dsimp only
      rw [if_neg (show ¬ ((r :: rest).take (fitCount caps' (r :: rest))).isEmpty = true from
        by simpa [List.isEmpty_iff] using hbne)]
    refine ⟨_, _, hread, ⟨?_, ?_, ?_, ?_, ?_⟩, Or.inr ?_⟩
    · exact hg'
    · intro row hrow j hj
      dsimp only at hj ⊢
      rw [hlen] at hj
      exact hcell row hrow j hj
    · dsimp only
      omega
    · dsimp only
      rw [hblen]
      omega
    · intro hcs
      dsimp only at hcs ⊢
      rw [hblen] at hcs ⊢
      by_cases hcond : rd.q.pos + fitCount caps' (r :: rest) = rd.q.rows.length
      · exact hcond
      · rw [if_neg hcond] at hcs
        exact absurd hcs (by simp)
    · dsimp only
      rw [hblen]
      omega

end SpecModel

namespace SpecModel

lemma iterRead_reaches_complete (fuel : Nat) :
    ∀ (k : Nat) (rd : Reader), ReaderGood fuel rd →
    rd.q.rows.length - rd.q.pos < k →
    ∃ rd2, iterRead fuel k rd = .ok rd2 ∧ rd2.q.state = QState.complete := by
  intro k
  induction k with
  | zero =>
    intro rd _ hk
    omega
  | succ k ih =>
    intro rd hg hk
    by_cases hc : rd.q.state = QState.complete
    · exact ⟨rd, iterRead_of_complete fuel rd hc (k + 1), hc⟩
    · obtain ⟨ob, rd2, hread, hg2, hprog⟩ := readNext_step_good fuel rd hg hc
      have hstep : iterRead fuel (k + 1) rd = iterRead fuel k rd2 := by
        rw [iterRead, hread]
      rcases hprog with hcomp2 | hlt
      · refine ⟨rd2, ?_, hcomp2⟩
        rw [hstep]
        exact iterRead_of_complete fuel rd2 hcomp2 k
      · obtain ⟨rd3, hiter, hcomp3⟩ := ih rd2 hg2 (by omega)
        refine ⟨rd3, ?_, hcomp3⟩
        rw [hstep]
        exact hiter

lemma iterRead_add (fuel : Nat) : ∀ (a b : Nat) (rd : Reader),
    iterRead fuel (a + b) rd =
      match iterRead fuel a rd with
      | .error e => .error e
      | .ok rd2 => iterRead fuel b rd2 := by
  intro a
  induction a with
  | zero =>
    intro b rd
    rw [Nat.zero_add]
    rfl
  | succ a ih =>
    intro b rd
    have hsucc : a + 1 + b = (a + b) + 1 := by omega
    rcases h : readNext fuel rd with e | p
    · have h1 : iterRead fuel (a + 1 + b) rd = .error e := by
        rw [hsucc, iterRead, h]
      have h2 : iterRead fuel (a + 1) rd = .error e := by
        rw [iterRead, h]
      rw [h1, h2]
    · obtain ⟨ob, rd2⟩ := p
      have h1 : iterRead fuel (a + 1 + b) rd = iterRead fuel (a + b) rd2 := by
        rw [hsucc, iterRead, h]
      have h2 : iterRead fuel (a + 1) rd = iterRead fuel a rd2 := by
        rw [iterRead, h]
      rw [h1, h2, ih b rd2]

/-- C4: termination — for every finite dataset, after `rows.length + 1`
`readNext()` calls the reader has returned "no more data" and is complete:
any `m` further calls leave the state unchanged, `isComplete()` reports
`true`, and one more `readNext()` returns "no more data" with the state
unchanged. -/
theorem readNext_terminates (rows : List Row) (caps : List Nat) (maxCap fuel m : Nat)
    (hgc : ∀ j ∈ List.range caps.length, 1 ≤ caps.getD j 0 ∧ caps.getD j 0 ≤ maxCap)
    (hcell : ∀ row ∈ rows, ∀ j ∈ List.range caps.length, cellBytes row j ≤ maxCap)
    (hfuel : capsSlack maxCap caps < fuel) :
    iterRead fuel (rows.length + 1 + m) (openReader rows caps maxCap) =
      iterRead fuel (rows.length + 1) (openReader rows caps maxCap) ∧
    (iterRead fuel (rows.length + 1) (openReader rows caps maxCap)).map isComplete =
      .ok true ∧
    (iterRead fuel (rows.length + 1) (openReader rows caps maxCap)).bind
        (fun rd2 => readNext fuel rd2) =
      (iterRead fuel (rows.length + 1) (openReader rows caps maxCap)).map
        (fun rd2 => (none, rd2)) := by
  have hgood : ReaderGood fuel (openReader rows caps maxCap) := by
    refine ⟨?_, ?_, hfuel, by simp [openReader], by intro h; simp [openReader] at h⟩
    · intro j hj
      exact hgc j (List.mem_range.mpr hj)
    · intro row hrow j hj
      exact hcell row hrow j (List.mem_range.mpr hj)
  obtain ⟨rd2, hiter, hcomp⟩ := iterRead_reaches_complete fuel (rows.length + 1)
    (openReader rows caps maxCap) hgood (by simp [openReader])
  have hreadc : readNext fuel rd2 = .ok (none, rd2) := by
    rw [readNext, if_pos hcomp]
  refine ⟨?_, ?_, ?_⟩
  · rw [iterRead_add fuel (rows.length + 1) m, hiter]
    dsimp only
    rw [iterRead_of_complete fuel rd2 hcomp m]
  · rw [hiter]
    simp [Except.map, isComplete, hcomp]
  · rw [hiter]
    simp only [Except.bind, Except.map]
    exact hreadc

theorem readNext_terminates_witness :
    iterRead 6 (2 + 1 + 5) (openReader [[[1], [10, 11]], [[2], [12]]] [2, 1] 4) =
      iterRead 6 (2 + 1) (openReader [[[1], [10, 11]], [[2], [12]]] [2, 1] 4) ∧
    (iterRead 6 (2 + 1) (openReader [[[1], [10, 11]], [[2], [12]]] [2, 1] 4)).map
        isComplete = .ok true ∧
    (iterRead 6 (2 + 1) (openReader [[[1], [10, 11]], [[2], [12]]] [2, 1] 4)).bind
        (fun rd2 => readNext 6 rd2) =
      (iterRead 6 (2 + 1) (openReader [[[1], [10, 11]], [[2], [12]]] [2, 1] 4)).map
        (fun rd2 => (none, rd2)) :=
  readNext_terminates [[[1], [10, 11]], [[2], [12]]] [2, 1] 4 6 5
    (by decide) (by decide) (by decide)

end SpecModel
